import Mathlib

/-!
Verification development for the speech-to-document application:
a transcript accumulator driven by speech-recognition events
(web Speech API backend and native Voice backend of
RecordingComponent.js) and a generation proxy with model fallback
(the Express server and the client helper in
DocumentGeneratorComponent.js).  All definitions below are direct
shallow embeddings of the JavaScript source.
-/

/-- One entry of the recognizer result batch: a transcript together
with the finality flag (models e.results[i] with the transcript of
its first alternative, as read by the code via res[0].transcript). -/
structure SpeechResult where
  transcript : String
  isFinal : Bool
deriving DecidableEq, Repr

/-- Value used where JavaScript would read past the end of the
results array (an absent result is never final). -/
def blankResult : SpeechResult := ⟨"", false⟩

abbrev Batch := List SpeechResult

/-- One element of recordingHistory: { id, text, timestamp }. -/
structure RecordingEntry where
  id : Nat
  text : String
  timestamp : String
deriving DecidableEq, Repr

/-- The component state touched by the recognizer callbacks:
isRecording, transcribedText, errorMessage, recordingHistory plus the
three refs lastFinalIndexRef, accumulatedFinalRef, currentSessionIdRef. -/
structure RCState where
  isRecording : Bool
  transcribedText : String
  errorMessage : String
  recordingHistory : List RecordingEntry
  lastFinalIndex : Nat
  accumulatedFinal : String
  currentSessionId : Option Nat
deriving DecidableEq, Repr

/-- Initial component state: useState(false), useState(two empty
strings), useState([]), useRef(0), useRef(empty), useRef(null). -/
def initState : RCState := ⟨false, "", "", [], 0, "", none⟩

/-- The JavaScript joining idiom a ? a + single-space + b : b, used
both for appended += (appended ? space : empty) + chunk and for the
accumulated-final update. -/
def joinStep (a b : String) : String := if a = "" then b else a ++ " " ++ b

/-- Left fold of joinStep from the empty string: the space join the
code produces over a list of chunks. -/
def joinSp (l : List String) : String := l.foldl joinStep ""

/-- Models JavaScript String.prototype.trim at the character level:
drop whitespace characters from both ends. -/
def trimChars (s : String) : String :=
  ⟨(((s.data.dropWhile Char.isWhitespace).reverse.dropWhile Char.isWhitespace).reverse)⟩

/-- display = [accumulated, interim].filter(Boolean).join(space).trim(). -/
def mkDisplay (acc interim : String) : String :=
  trimChars (String.intercalate " " (List.filter (fun s => s != "") [acc, interim]))

/-- Live update of the history entry of the running session: the code
guards with if (sid), so a null id and the falsy id 0 both skip it. -/
def updateHistory (hist : List RecordingEntry) (sid : Option Nat) (txt : String) :
    List RecordingEntry :=
  match sid with
  | some i =>
      if i ≠ 0 then hist.map (fun r => if r.id = i then { r with text := txt } else r)
      else hist
  | none => hist

/-- The web onresult scan: for (i = lastFinalIndex; i < results.length; i++)
if results[i].isFinal then append its transcript and move the cursor
to i + 1.  The first argument is the remaining results, the second the
absolute index of its head, the third the cursor, the fourth the
appended string; returns (appended, cursor). -/
def consumeFrom : List SpeechResult → Nat → Nat → String → String × Nat
  | [], _, c, app => (app, c)
  | r :: rest, i, c, app =>
      if r.isFinal then consumeFrom rest (i + 1) (i + 1) (joinStep app r.transcript)
      else consumeFrom rest (i + 1) c app

/-- recog.onstart: reset the cursor and the accumulated final text,
clear the live transcript, open a session and append it to history. -/
def startStep (s : RCState) (newId : Nat) (ts : String) : RCState :=
  { s with
    isRecording := true
    lastFinalIndex := 0
    accumulatedFinal := ""
    transcribedText := ""
    currentSessionId := some newId
    recordingHistory := s.recordingHistory ++ [⟨newId, "", ts⟩] }

/-- recog.onresult: consume new final results from the cursor on,
extend the accumulated final text, recompute the display from the
accumulation plus the trailing interim fragment, publish it and mirror
it into the running history entry.  On an empty batch the original
code throws reading the last result after having changed nothing, and
the exception is swallowed, so the state is unchanged. -/
def resultStep (s : RCState) (batch : Batch) : RCState :=
  match batch.getLast? with
  | none => s
  | some latest =>
      let scanned := consumeFrom (batch.drop s.lastFinalIndex) s.lastFinalIndex s.lastFinalIndex ""
      let appended := scanned.1
      let newCursor := scanned.2
      let newAcc := if appended = "" then s.accumulatedFinal
        else joinStep s.accumulatedFinal appended
      let interim := if latest.isFinal then "" else latest.transcript
      let display := mkDisplay newAcc interim
      { s with
        lastFinalIndex := newCursor
        accumulatedFinal := newAcc
        transcribedText := display
        recordingHistory := updateHistory s.recordingHistory s.currentSessionId display }

/-- Events of the web (browser SpeechRecognition) backend. -/
inductive WebEvent where
  | start (newId : Nat) (timestamp : String)
  | ended
  | error (msg : String)
  | result (batch : Batch)

/-- The web backend event handlers of RecordingComponent.js. -/
def stepWeb (s : RCState) : WebEvent → RCState
  | .start newId ts => startStep s newId ts
  | .ended => { s with isRecording := false, currentSessionId := none }
  | .error msg => { s with errorMessage := "음성 인식 오류: " ++ msg }
  | .result batch => resultStep s batch

/-- Events of the native (Voice) backend. -/
inductive NativeEvent where
  | start (newId : Nat) (timestamp : String)
  | ended
  | error (msg : String)
  | partialResults (values : List String)
  | results (values : List String)

/-- Voice.onSpeechStart: clears the live transcript and the
accumulated final text and opens a session; unlike the web handler it
does not touch lastFinalIndexRef. -/
def nativeStartStep (s : RCState) (newId : Nat) (ts : String) : RCState :=
  { s with
    isRecording := true
    transcribedText := ""
    accumulatedFinal := ""
    currentSessionId := some newId
    recordingHistory := s.recordingHistory ++ [⟨newId, "", ts⟩] }

/-- Shared body of Voice.onSpeechPartialResults and
Voice.onSpeechResults: when the value list is non-empty, join it with
spaces and append it to the published transcript, mirroring into the
running history entry. -/
def nativeChunkStep (s : RCState) (values : List String) : RCState :=
  if values.isEmpty then s
  else
    let chunk := String.intercalate " " values
    let updated := joinStep s.transcribedText chunk
    { s with
      transcribedText := updated
      recordingHistory := updateHistory s.recordingHistory s.currentSessionId updated }

/-- The native backend event handlers of RecordingComponent.js. -/
def stepNative (s : RCState) : NativeEvent → RCState
  | .start newId ts => nativeStartStep s newId ts
  | .ended => { s with isRecording := false, currentSessionId := none }
  | .error msg => { s with errorMessage := "음성 인식 오류: " ++ msg }
  | .partialResults values => nativeChunkStep s values
  | .results values => nativeChunkStep s values

/-- Run the native backend from the initial component state. -/
def runNative (evs : List NativeEvent) : RCState := evs.foldl stepNative initState

/-- Run the web backend from the initial component state. -/
def runWeb (evs : List WebEvent) : RCState := evs.foldl stepWeb initState

/-- One web session: a start event followed by the given result batches. -/
def runSession (bs : List Batch) : RCState :=
  bs.foldl (fun s b => stepWeb s (.result b)) (stepWeb initState (.start 1 "session"))

/-- The transcripts of the results flagged final in a batch, in order. -/
def finalsOf (b : Batch) : List String :=
  (b.filter (fun r => r.isFinal)).map (fun r => r.transcript)

/-- Batch b redelivers the final results of batch a unchanged: every
position of a holding a final result holds the identical result in b. -/
def extendsFinals (a b : Batch) : Prop :=
  ∀ i, i < a.length → (a.getD i blankResult).isFinal = true →
    b.getD i blankResult = a.getD i blankResult

instance (a b : Batch) : Decidable (extendsFinals a b) :=
  Nat.decidableBallLT a.length _

/-- A batch sequence in which each batch redelivers the final results
of its predecessor unchanged (and may extend it). -/
def validSeq : List Batch → Prop
  | b₁ :: b₂ :: rest => extendsFinals b₁ b₂ ∧ validSeq (b₂ :: rest)
  | _ => True

instance instDecidableValidSeq : (bs : List Batch) → Decidable (validSeq bs)
  | [] => Decidable.isTrue trivial
  | [_] => Decidable.isTrue trivial
  | b₁ :: b₂ :: rest =>
      have : Decidable (validSeq (b₂ :: rest)) := instDecidableValidSeq (b₂ :: rest)
      inferInstanceAs (Decidable (extendsFinals b₁ b₂ ∧ validSeq (b₂ :: rest)))

/-- The final results of a batch form an initial segment: everything
after the leading run of final results is non-final. -/
def finalsFirst (b : Batch) : Prop :=
  ∀ r ∈ b.dropWhile (fun r => r.isFinal), r.isFinal = false

instance (b : Batch) : Decidable (finalsFirst b) := List.decidableBAll _ _

/-- Predicate picking out the web start event. -/
def isStartWeb : WebEvent → Bool
  | .start _ _ => true
  | _ => false

/-- Predicate picking out the native start event. -/
def isStartNative : NativeEvent → Bool
  | .start _ _ => true
  | _ => false

/-! Server side: the Express /api/generate handler. -/

/-- A JSON field value as the validation distinguishes it: a string,
or some value of another type. -/
inductive JsVal where
  | str (s : String)
  | nonString
deriving DecidableEq, Repr

/-- Request body of POST /api/generate: text and documentType fields,
each possibly absent. -/
structure ReqBody where
  text : Option JsVal
  documentType : Option String
deriving DecidableEq, Repr

/-- The object produced by req.body || {} when the body is absent. -/
def emptyBody : ReqBody := ⟨none, none⟩

/-- Response of the handler: res.json({content}) with status 200,
res.status(400).json({error}) or res.status(500).json({error}). -/
inductive ApiResponse where
  | ok (content : String)
  | badRequest (error : String)
  | serverError (error : String)
deriving DecidableEq, Repr

/-- HTTP status of each response shape. -/
def ApiResponse.status : ApiResponse → Nat
  | .ok _ => 200
  | .badRequest _ => 400
  | .serverError _ => 500

/-- Built-in default model name. -/
def defaultModel : String := "gemini-2.5-flash"

/-- Hardcoded secondary fallback model name. -/
def secondModel : String := "gemini-1.5-flash"

/-- process.env.GEMINI_MODEL || built-in default: a missing or empty
environment value falls back to the default. -/
def firstModel : Option String → String
  | some m => if m = "" then defaultModel else m
  | none => defaultModel

/-- candidates = [process.env.GEMINI_MODEL || default, secondary]. -/
def candidateList (geminiModelEnv : Option String) : List String :=
  [firstModel geminiModelEnv, secondModel]

/-- The 400 validation message of the handler. -/
def validationMsg : String := "유효한 텍스트가 필요합니다(3자 이상)."

/-- The validation guard: !text || typeof text !== string ||
text.trim().length < 3. -/
def textInvalid : Option JsVal → Bool
  | none => true
  | some JsVal.nonString => true
  | some (JsVal.str s) => s == "" || decide ((trimChars s).length < 3)

/-- The text the handler works with after validation. -/
def textOf (b : ReqBody) : String :=
  match b.text with
  | some (JsVal.str s) => s
  | _ => ""

/-- Destructuring default: documentType = the report label when the
field is absent; any present string, including the empty one, is used
as is. -/
def effDocType (b : ReqBody) : String := b.documentType.getD "보고서"

/-- Prompt template text before the document type. -/
def promptHead : String := "사용자가 말한 내용을 바탕으로 "

/-- Prompt template text between document type and source text. -/
def promptMid : String := " 형식의 한국어 문서를 작성하세요. 내용은 다음과 같습니다:\n\n"

/-- Prompt template text after the source text. -/
def promptTail : String := "\n\n요구사항:\n- 제목, 요약, 본문(항목) 형태로 명확하게 구조화\n- 중복 제거 및 문장 다듬기\n- 핵심만 압축, 불필요한 표현 제거\n- 맞춤법 및 띄어쓰기 보정"

/-- The prompt template literal of the handler as a function of the
document type and the raw text. -/
def mkPrompt (documentType text : String) : String :=
  promptHead ++ documentType ++ promptMid ++ text ++ promptTail

/-- The prompt the handler constructs for a given body. -/
def promptOf (b : ReqBody) : String := mkPrompt (effDocType b) (textOf b)

/-- Message finally reported when the sweep is exhausted: the thrown
error is lastError || Error(generation-failed), and the catch block
reports error.message || unknown-error. -/
def exhaustMsg : Option String → String
  | none => "문서 생성 실패"
  | some e => if e = "" then "알 수 없는 오류" else e

/-- The fallback sweep: one generation call per candidate, return 200
with the content on the first success, keep the last error otherwise;
when all candidates fail, a 500 with the exhaustion message.  Also
returns the list of candidates actually attempted, in order. -/
def tryModels (call : String → Except String String) :
    List String → Option String → ApiResponse × List String
  | [], last => (ApiResponse.serverError (exhaustMsg last), [])
  | m :: rest, _last =>
      match call m with
      | Except.ok t => (ApiResponse.ok t, [m])
      | Except.error e =>
          let r := tryModels call rest (some e)
          (r.1, m :: r.2)

/-- The POST /api/generate handler: body defaulting, validation, prompt
construction and the fallback sweep.  The call argument abstracts one
generation call (getGenerativeModel + generateContent + response.text)
as a function of model name and prompt. -/
def handleGenerate (env : Option String) (call : String → String → Except String String)
    (body : Option ReqBody) : ApiResponse × List String :=
  let b := body.getD emptyBody
  if textInvalid b.text then (ApiResponse.badRequest validationMsg, [])
  else tryModels (fun m => call m (promptOf b)) (candidateList env) none

/-! Client side: the generateDocument helper of
DocumentGeneratorComponent.js. -/

/-- The client state pieces generateDocument touches. -/
structure DocGenState where
  generatedDocument : String
  editedDocument : String
  error : String
  isGenerating : Bool
deriving DecidableEq, Repr

/-- Outcome of the fetch to the proxy: the fetch (or res.json) rejects
with a message, or a response arrives with an ok flag and the optional
content and error fields of its JSON body. -/
inductive FetchOutcome where
  | throws (msg : String)
  | resp (ok : Bool) (content : Option String) (errField : Option String)
deriving DecidableEq, Repr

/-- Error message shown when no text is available. -/
def noTextMsg : String := "음성 텍스트가 없습니다. 먼저 음성을 녹음해주세요."

/-- The client generateDocument: returns the new state and whether an
HTTP request was issued.  Empty text returns early with a message; a
failed request (rejection or a non-ok status) clears both document
states and reports the error; success stores the content (or the empty
string) in both document states. -/
def generateDocument (s : DocGenState) (text : String) (outcome : FetchOutcome) :
    DocGenState × Bool :=
  if text = "" then ({ s with error := noTextMsg }, false)
  else
    match outcome with
    | .throws msg =>
        ({ s with
          error := "문서 생성 중 오류가 발생했습니다: " ++
            (if msg = "" then "알 수 없는 오류" else msg)
          generatedDocument := ""
          editedDocument := ""
          isGenerating := false }, true)
    | .resp ok content errField =>
        if ok then
          let g := content.getD ""
          ({ s with
            error := ""
            generatedDocument := g
            editedDocument := g
            isGenerating := false }, true)
        else
          let m := match errField with
            | some e => if e = "" then "문서 생성 요청 실패" else e
            | none => "문서 생성 요청 실패"
          ({ s with
            error := "문서 생성 중 오류가 발생했습니다: " ++ m
            generatedDocument := ""
            editedDocument := ""
            isGenerating := false }, true)

/-! Helper lemmas about string concatenation and the join idiom. -/

theorem strApp_mk (a b : List Char) : String.mk a ++ String.mk b = String.mk (a ++ b) := rfl

theorem str_assoc (a b c : String) : a ++ b ++ c = a ++ (b ++ c) := by
  obtain ⟨la⟩ := a
  obtain ⟨lb⟩ := b
  obtain ⟨lc⟩ := c
  rw [strApp_mk, strApp_mk, strApp_mk, strApp_mk, List.append_assoc]

theorem str_empty_append (s : String) : "" ++ s = s := by
  obtain ⟨l⟩ := s
  rfl

theorem str_append_empty (s : String) : s ++ "" = s := by
  obtain ⟨l⟩ := s
  rw [show ("" : String) = String.mk [] from rfl, strApp_mk, List.append_nil]

theorem str_append_ne_empty (a b : String) (h : a ≠ "") : a ++ b ≠ "" := by
  obtain ⟨la⟩ := a
  obtain ⟨lb⟩ := b
  cases la with
  | nil => exact absurd rfl h
  | cons c t =>
      rw [strApp_mk]
      intro heq
      have hd := congrArg String.data heq
      simp at hd

theorem joinStep_empty_left (b : String) : joinStep "" b = b := by simp [joinStep]

theorem joinStep_of_ne (a b : String) (ha : a ≠ "") : joinStep a b = a ++ " " ++ b := by
  simp [joinStep, ha]

theorem joinStep_ne_empty (a b : String) (hb : b ≠ "") : joinStep a b ≠ "" := by
  by_cases ha : a = ""
  · rw [ha, joinStep_empty_left]
    exact hb
  · rw [joinStep_of_ne a b ha]
    exact str_append_ne_empty _ _ (str_append_ne_empty _ _ ha)

theorem joinStep_assoc (a b c : String) (hb : b ≠ "") :
    joinStep (joinStep a b) c = joinStep a (joinStep b c) := by
  by_cases ha : a = ""
  · rw [ha, joinStep_empty_left, joinStep_empty_left]
  · rw [joinStep_of_ne b c hb, joinStep_of_ne a b ha,
      joinStep_of_ne _ c (str_append_ne_empty _ _ (str_append_ne_empty _ _ ha)),
      joinStep_of_ne a _ ha]
    simp [str_assoc]

theorem foldl_joinStep_ne_empty (l : List String) :
    ∀ a : String, a ≠ "" → (∀ x ∈ l, x ≠ "") → l.foldl joinStep a ≠ "" := by
  induction l with
  | nil => intro a ha _; exact ha
  | cons x t ih =>
      intro a ha h
      rw [List.foldl_cons]
      refine ih (joinStep a x) ?_ (fun y hy => h y (List.mem_cons_of_mem x hy))
      rw [joinStep_of_ne a x ha]
      exact str_append_ne_empty _ _ (str_append_ne_empty _ _ ha)

theorem joinSp_ne_empty (l : List String) (hl : l ≠ []) (h : ∀ x ∈ l, x ≠ "") :
    joinSp l ≠ "" := by
  cases l with
  | nil => exact absurd rfl hl
  | cons x t =>
      show (x :: t).foldl joinStep "" ≠ ""
      rw [List.foldl_cons, joinStep_empty_left]
      exact foldl_joinStep_ne_empty t x (h x (List.mem_cons_self x t))
        (fun y hy => h y (List.mem_cons_of_mem x hy))

theorem foldl_joinStep_eq (l : List String) (h : ∀ x ∈ l, x ≠ "") :
    ∀ a : String, l.foldl joinStep a = if l.isEmpty then a else joinStep a (joinSp l) := by
  induction l with
  | nil => intro a; rfl
  | cons x t ih =>
      intro a
      have hx : x ≠ "" := h x (List.mem_cons_self x t)
      have ht : ∀ y ∈ t, y ≠ "" := fun y hy => h y (List.mem_cons_of_mem x hy)
      have hsp : joinSp (x :: t) = t.foldl joinStep x := by
        show (x :: t).foldl joinStep "" = _
        rw [List.foldl_cons, joinStep_empty_left]
      rw [List.foldl_cons, ih ht (joinStep a x)]
      cases t with
      | nil =>
          show joinStep a x = joinStep a (joinSp [x])
          rw [hsp]
          rfl
      | cons y u =>
          rw [hsp, ih ht x]
          show joinStep (joinStep a x) (joinSp (y :: u)) = joinStep a (joinStep x (joinSp (y :: u)))
          exact joinStep_assoc a x (joinSp (y :: u)) hx

theorem joinSp_append (l₁ l₂ : List String) (h : ∀ x ∈ l₂, x ≠ "") (h₂ : l₂ ≠ []) :
    joinSp (l₁ ++ l₂) = joinStep (joinSp l₁) (joinSp l₂) := by
  have he : l₂.isEmpty = false := by
    cases l₂ with
    | nil => exact absurd rfl h₂
    | cons _ _ => rfl
  show (l₁ ++ l₂).foldl joinStep "" = _
  rw [List.foldl_append, foldl_joinStep_eq l₂ h, he]
  rfl

/-! Helper lemmas about the cursor scan of the web onresult handler. -/

theorem consumeFrom_noFinal (l : List SpeechResult) (hI : ∀ r ∈ l, r.isFinal = false) :
    ∀ (i c : Nat) (app : String), consumeFrom l i c app = (app, c) := by
  induction l with
  | nil => intro i c app; rfl
  | cons r t ih =>
      intro i c app
      have hr : r.isFinal = false := hI r (List.mem_cons_self r t)
      simp only [consumeFrom, hr]
      exact ih (fun x hx => hI x (List.mem_cons_of_mem r hx)) (i + 1) c app

theorem consumeFrom_split (G I : List SpeechResult) (hG : ∀ r ∈ G, r.isFinal = true)
    (hI : ∀ r ∈ I, r.isFinal = false) :
    ∀ (c : Nat) (app : String),
      consumeFrom (G ++ I) c c app =
        ((G.map (fun r => r.transcript)).foldl joinStep app, c + G.length) := by
  induction G with
  | nil =>
      intro c app
      rw [List.nil_append]
      rw [consumeFrom_noFinal I hI c c app]
      rfl
  | cons r t ih =>
      intro c app
      have hr : r.isFinal = true := hG r (List.mem_cons_self r t)
      show consumeFrom (r :: (t ++ I)) c c app = _
      simp only [consumeFrom, hr]
      rw [if_pos trivial]
      rw [ih (fun x hx => hG x (List.mem_cons_of_mem r hx)) (c + 1) (joinStep app r.transcript)]
      simp only [List.map_cons, List.foldl_cons, List.length_cons]
      rw [Nat.add_comm t.length 1, ← Nat.add_assoc]

theorem consumeFrom_fst (l : List SpeechResult) :
    ∀ (i c : Nat) (app : String),
      (consumeFrom l i c app).1 =
        ((l.filter (fun r => r.isFinal)).map (fun r => r.transcript)).foldl joinStep app := by
  induction l with
  | nil => intro i c app; rfl
  | cons r t ih =>
      intro i c app
      cases hr : r.isFinal with
      | false => simp [consumeFrom, hr, List.filter_cons, ih]
      | true => simp [consumeFrom, hr, List.filter_cons, ih]

theorem consumeFrom_fst0 (l : List SpeechResult) (i c : Nat) :
    (consumeFrom l i c "").1 =
      joinSp ((l.filter (fun r => r.isFinal)).map (fun r => r.transcript)) :=
  consumeFrom_fst l i c ""

theorem consumeFrom_cursor_ge (l : List SpeechResult) :
    ∀ (i c : Nat) (app : String), c ≤ i → c ≤ (consumeFrom l i c app).2 := by
  induction l with
  | nil => intro i c app _; exact Nat.le_refl c
  | cons r t ih =>
      intro i c app h
      cases hr : r.isFinal with
      | false =>
          simp only [consumeFrom, hr]
          exact ih (i + 1) c app (Nat.le_trans h (Nat.le_succ i))
      | true =>
          simp only [consumeFrom, hr]
          rw [if_pos trivial]
          exact Nat.le_trans (Nat.le_trans h (Nat.le_succ i))
            (ih (i + 1) (i + 1) _ (Nat.le_refl _))

/-! List helper lemmas used by the accumulator invariant. -/

theorem getD_mem_of_lt {α : Type} (l : List α) (d : α) (i : Nat) (h : i < l.length) :
    l.getD i d ∈ l := by
  rw [List.getD_eq_getElem?_getD, List.getElem?_eq_getElem h]
  exact List.getElem_mem h

theorem take_eq_of_agree : ∀ (xs b : Batch), xs.length ≤ b.length →
    (∀ i, i < xs.length → b.getD i blankResult = xs.getD i blankResult) →
    b.take xs.length = xs := by
  intro xs
  induction xs with
  | nil => intro b _ _; rfl
  | cons x t ih =>
      intro b hlen hag
      cases b with
      | nil => simp at hlen
      | cons y bt =>
          have h0 := hag 0 (Nat.succ_pos _)
          rw [List.getD_cons_zero, List.getD_cons_zero] at h0
          have hag2 : ∀ i, i < t.length → bt.getD i blankResult = t.getD i blankResult := by
            intro i hi
            have := hag (i + 1) (Nat.succ_lt_succ hi)
            rwa [List.getD_cons_succ, List.getD_cons_succ] at this
          have hlen2 : t.length ≤ bt.length := by
            rw [List.length_cons, List.length_cons] at hlen
            omega
          rw [List.length_cons, List.take_succ_cons, h0, ih bt hlen2 hag2]

theorem takeWhile_append_of_all {α : Type} (p : α → Bool) (xs ys : List α)
    (h : ∀ x ∈ xs, p x = true) : (xs ++ ys).takeWhile p = xs ++ ys.takeWhile p := by
  induction xs with
  | nil => rfl
  | cons x t ih =>
      have hx := h x (List.mem_cons_self x t)
      simp only [List.cons_append, List.takeWhile_cons, hx, if_pos trivial]
      rw [ih (fun y hy => h y (List.mem_cons_of_mem x hy))]

theorem dropWhile_append_of_all {α : Type} (p : α → Bool) (xs ys : List α)
    (h : ∀ x ∈ xs, p x = true) : (xs ++ ys).dropWhile p = ys.dropWhile p := by
  induction xs with
  | nil => rfl
  | cons x t ih =>
      have hx := h x (List.mem_cons_self x t)
      simp only [List.cons_append, List.dropWhile_cons, hx, if_pos trivial]
      exact ih (fun y hy => h y (List.mem_cons_of_mem x hy))

theorem mem_takeWhile_pred {α : Type} (p : α → Bool) :
    ∀ (l : List α), ∀ x ∈ l.takeWhile p, p x = true := by
  intro l
  induction l with
  | nil => intro x hx; cases hx
  | cons a t ih =>
      intro x hx
      rw [List.takeWhile_cons] at hx
      by_cases ha : p a = true
      · rw [if_pos ha] at hx
        rcases List.mem_cons.mp hx with h1 | h2
        · rw [h1]; exact ha
        · exact ih x h2
      · rw [if_neg ha] at hx
        cases hx

theorem filter_of_all {α : Type} (p : α → Bool) (l : List α)
    (h : ∀ x ∈ l, p x = true) : l.filter p = l :=
  List.filter_eq_self.mpr h

theorem filter_of_none {α : Type} (p : α → Bool) (l : List α)
    (h : ∀ x ∈ l, p x = false) : l.filter p = [] :=
  List.filter_eq_nil_iff.mpr (fun a ha => by rw [h a ha]; exact Bool.false_ne_true)

theorem filter_final_eq_takeWhile (b : Batch) (h : finalsFirst b) :
    b.filter (fun r => r.isFinal) = b.takeWhile (fun r => r.isFinal) := by
  conv_lhs => rw [← List.takeWhile_append_dropWhile (fun r => r.isFinal) b]
  rw [List.filter_append]
  rw [filter_of_all (fun r => r.isFinal) (List.takeWhile (fun r => r.isFinal) b)
    (mem_takeWhile_pred (fun r => r.isFinal) b)]
  have h2 : ∀ x ∈ List.dropWhile (fun r : SpeechResult => r.isFinal) b,
      (fun r : SpeechResult => r.isFinal) x = false := h
  rw [filter_of_none (fun r => r.isFinal) (List.dropWhile (fun r => r.isFinal) b) h2]
  exact List.append_nil _

theorem getLastD_mem_cons {α : Type} : ∀ (l : List α) (a : α), l.getLastD a ∈ a :: l := by
  intro l
  induction l with
  | nil => intro a; rw [List.getLastD_nil]; exact List.mem_cons_self a []
  | cons b t ih =>
      intro a
      rw [List.getLastD_cons]
      exact List.mem_cons_of_mem a (ih b)

theorem extendsFinals_out (a b : Batch) (h : extendsFinals a b) :
    ∀ i, (a.getD i blankResult).isFinal = true → b.getD i blankResult = a.getD i blankResult := by
  intro i hf
  by_cases hi : i < a.length
  · exact h i hi hf
  · rw [List.getD_eq_default _ _ (Nat.le_of_not_lt hi)] at hf
    exact absurd hf (by simp [blankResult])

/-! Unfolding lemmas for the onresult handler. -/

theorem resultStep_lastFinalIndex (s : RCState) (batch : Batch) (latest : SpeechResult)
    (h : batch.getLast? = some latest) :
    (resultStep s batch).lastFinalIndex =
      (consumeFrom (batch.drop s.lastFinalIndex) s.lastFinalIndex s.lastFinalIndex "").2 := by
  simp [resultStep, h]

theorem resultStep_accumulatedFinal (s : RCState) (batch : Batch) (latest : SpeechResult)
    (h : batch.getLast? = some latest) :
    (resultStep s batch).accumulatedFinal =
      (if (consumeFrom (batch.drop s.lastFinalIndex) s.lastFinalIndex s.lastFinalIndex "").1 = ""
       then s.accumulatedFinal
       else joinStep s.accumulatedFinal
         (consumeFrom (batch.drop s.lastFinalIndex) s.lastFinalIndex s.lastFinalIndex "").1) := by
  simp [resultStep, h]

theorem resultStep_transcribedText (s : RCState) (batch : Batch) (latest : SpeechResult)
    (h : batch.getLast? = some latest) :
    (resultStep s batch).transcribedText =
      mkDisplay (resultStep s batch).accumulatedFinal
        (if latest.isFinal then "" else latest.transcript) := by
  simp [resultStep, h]

/-! The per-batch invariant of the web accumulator: when every batch
redelivers the final results of its predecessor unchanged and keeps its
final results in front, the cursor equals the number of finals of the
last batch and the accumulation is their join. -/

theorem resultStep_inv (s : RCState) (prev next : Batch)
    (hcur : s.lastFinalIndex = (prev.takeWhile (fun r => r.isFinal)).length)
    (hacc : s.accumulatedFinal =
      joinSp ((prev.takeWhile (fun r => r.isFinal)).map (fun r => r.transcript)))
    (hext : extendsFinals prev next)
    (hpre : finalsFirst next)
    (hne : ∀ r ∈ next, r.isFinal = true → r.transcript ≠ "") :
    (resultStep s next).lastFinalIndex = (next.takeWhile (fun r => r.isFinal)).length ∧
    (resultStep s next).accumulatedFinal =
      joinSp ((next.takeWhile (fun r => r.isFinal)).map (fun r => r.transcript)) := by
  set fp := prev.takeWhile (fun r => r.isFinal) with hfpdef
  have hfp_final : ∀ x ∈ fp, x.isFinal = true := by
    intro x hx
    exact mem_takeWhile_pred (fun r => r.isFinal) prev x hx
  have hprev_eq : fp ++ prev.dropWhile (fun r => r.isFinal) = prev :=
    List.takeWhile_append_dropWhile _ _
  have hfp_pos : ∀ i, i < fp.length →
      prev.getD i blankResult = fp.getD i blankResult := by
    intro i hi
    conv_lhs => rw [← hprev_eq]
    exact List.getD_append _ _ _ i hi
  have hagree : ∀ i, i < fp.length →
      next.getD i blankResult = fp.getD i blankResult ∧
      (next.getD i blankResult).isFinal = true := by
    intro i hi
    have hf : (fp.getD i blankResult).isFinal = true :=
      hfp_final _ (getD_mem_of_lt fp blankResult i hi)
    have hpf : (prev.getD i blankResult).isFinal = true := by
      rw [hfp_pos i hi]; exact hf
    have hb : next.getD i blankResult = prev.getD i blankResult :=
      extendsFinals_out prev next hext i hpf
    refine ⟨?_, ?_⟩
    · rw [hb, hfp_pos i hi]
    · rw [hb]; exact hpf
  have hc_le : fp.length ≤ next.length := by
    by_contra hcon
    push_neg at hcon
    have h1 := (hagree next.length hcon).2
    rw [List.getD_eq_default _ _ (Nat.le_refl _)] at h1
    simp [blankResult] at h1
  have htake : next.take fp.length = fp :=
    take_eq_of_agree fp next hc_le (fun i hi => (hagree i hi).1)
  have hsplit : next = fp ++ next.drop fp.length := by
    conv_lhs => rw [← List.take_append_drop fp.length next]
    rw [htake]
  set G := (next.drop fp.length).takeWhile (fun r => r.isFinal) with hGdef
  set I := (next.drop fp.length).dropWhile (fun r => r.isFinal) with hIdef
  have hG_final : ∀ x ∈ G, x.isFinal = true := by
    intro x hx
    exact mem_takeWhile_pred (fun r => r.isFinal) _ x hx
  have hdw : next.dropWhile (fun r => r.isFinal) = I := by
    conv_lhs => rw [hsplit]
    exact dropWhile_append_of_all _ _ _ hfp_final
  have hI_not : ∀ x ∈ I, x.isFinal = false := by
    intro x hx
    apply hpre
    rw [hdw]
    exact hx
  have hF : next.takeWhile (fun r => r.isFinal) = fp ++ G := by
    conv_lhs => rw [hsplit]
    exact takeWhile_append_of_all _ _ _ hfp_final
  cases hlast : next.getLast? with
  | none =>
      have hnil : next = [] := List.getLast?_eq_none_iff.mp hlast
      have hzero : fp.length = 0 := by
        rw [hnil] at hc_le
        simpa using hc_le
      have hfp_nil : fp = [] := List.length_eq_zero.mp hzero
      have hstep : resultStep s next = s := by rw [hnil]; rfl
      rw [hstep, hnil]
      constructor
      · rw [hcur, hzero]; rfl
      · rw [hacc, hfp_nil]; rfl
  | some latest =>
      have hdrop : next.drop s.lastFinalIndex = G ++ I := by
        rw [hcur, hGdef, hIdef, List.takeWhile_append_dropWhile]
      have hscan : consumeFrom (next.drop s.lastFinalIndex) s.lastFinalIndex s.lastFinalIndex "" =
          (joinSp (G.map (fun r => r.transcript)), fp.length + G.length) := by
        rw [hdrop, hcur]
        exact consumeFrom_split G I hG_final hI_not fp.length ""
      constructor
      · rw [resultStep_lastFinalIndex s next latest hlast, hscan, hF, List.length_append]
      · rw [resultStep_accumulatedFinal s next latest hlast, hscan]
        dsimp only
        by_cases hG0 : G = []
        · rw [hG0]
          rw [if_pos (show joinSp (List.map (fun r : SpeechResult => r.transcript) []) = ""
            from rfl)]
          rw [hacc, hF, hG0, List.append_nil]
        · have hGmap_ne : G.map (fun r => r.transcript) ≠ [] :=
            fun hmap => hG0 (List.map_eq_nil_iff.mp hmap)
          have hGel : ∀ x ∈ G.map (fun r => r.transcript), x ≠ "" := by
            intro x hx
            obtain ⟨r, hr, hrx⟩ := List.mem_map.mp hx
            have hrdrop : r ∈ next.drop fp.length := by
              have hmem : r ∈ G ++ I := List.mem_append.mpr (Or.inl hr)
              rw [hGdef, hIdef, List.takeWhile_append_dropWhile] at hmem
              exact hmem
            have hrnext : r ∈ next := by
              rw [hsplit]
              exact List.mem_append.mpr (Or.inr hrdrop)
            rw [← hrx]
            exact hne r hrnext (hG_final r hr)
          have happne : joinSp (G.map (fun r => r.transcript)) ≠ "" :=
            joinSp_ne_empty _ hGmap_ne hGel
          rw [if_neg happne]
          rw [hacc, hF, List.map_append, joinSp_append _ _ hGel hGmap_ne]

theorem run_inv : ∀ (bs : List Batch) (s : RCState) (prev : Batch),
    s.lastFinalIndex = (prev.takeWhile (fun r => r.isFinal)).length →
    s.accumulatedFinal =
      joinSp ((prev.takeWhile (fun r => r.isFinal)).map (fun r => r.transcript)) →
    validSeq (prev :: bs) →
    (∀ b ∈ bs, finalsFirst b) →
    (∀ b ∈ bs, ∀ r ∈ b, r.isFinal = true → r.transcript ≠ "") →
    (bs.foldl (fun s b => stepWeb s (.result b)) s).accumulatedFinal =
      joinSp (((bs.getLastD prev).takeWhile (fun r => r.isFinal)).map
        (fun r => r.transcript)) := by
  intro bs
  induction bs with
  | nil =>
      intro s prev _ hacc _ _ _
      simpa using hacc
  | cons b t ih =>
      intro s prev hcur hacc hv hp hn
      have hv1 : extendsFinals prev b ∧ validSeq (b :: t) := hv
      have hstep := resultStep_inv s prev b hcur hacc hv1.1
        (hp b (List.mem_cons_self b t)) (hn b (List.mem_cons_self b t))
      rw [List.foldl_cons, List.getLastD_cons]
      exact ih (stepWeb s (.result b)) b hstep.1 hstep.2 hv1.2
        (fun x hx => hp x (List.mem_cons_of_mem b hx))
        (fun x hx => hn x (List.mem_cons_of_mem b hx))

theorem validSeq_nil_cons (bs : List Batch) (h : validSeq bs) :
    validSeq (([] : Batch) :: bs) := by
  cases bs with
  | nil => trivial
  | cons b t => exact ⟨fun i hi => absurd hi (Nat.not_lt_zero i), h⟩

/-- C1 counterexample: the batch sequence with batches
[interim a, final b] and then [final a, final b] satisfies the claimed
hypothesis — the second batch redelivers the final result b of the
first batch unchanged at its position and extends the set of finals —
yet the accumulated finalizedText is only the text of b, while the
space-joined concatenation of all results ever flagged final also
contains a: the result finalized later at a position below the cursor
is omitted forever. -/
theorem c1_claim_counterexample :
    validSeq [[⟨"a", false⟩, ⟨"b", true⟩], [⟨"a", true⟩, ⟨"b", true⟩]] ∧
    (runSession [[⟨"a", false⟩, ⟨"b", true⟩],
        [⟨"a", true⟩, ⟨"b", true⟩]]).accumulatedFinal ≠
      joinSp (finalsOf (([[⟨"a", false⟩, ⟨"b", true⟩],
        [⟨"a", true⟩, ⟨"b", true⟩]] : List Batch).getLastD [])) :=
  ⟨by decide, by decide⟩

/-- C1 (amended): for every batch sequence in one web session where
each batch redelivers the final results of the previous batch
unchanged, the final results of every batch precede all its non-final
results, and every final transcript is non-empty, the accumulated
finalizedText equals the space-joined concatenation of all results
ever flagged final (the finals of the last batch), each exactly once. -/
theorem c1_accumulator_correct (bs : List Batch)
    (hv : validSeq bs)
    (hp : ∀ b ∈ bs, finalsFirst b)
    (hn : ∀ b ∈ bs, ∀ r ∈ b, r.isFinal = true → r.transcript ≠ "") :
    (runSession bs).accumulatedFinal = joinSp (finalsOf (bs.getLastD [])) := by
  have hlastP : finalsFirst (bs.getLastD []) := by
    cases bs with
    | nil =>
        intro r hr
        cases hr
    | cons b t =>
        have hmem : (b :: t).getLastD [] ∈ b :: t := by
          rw [List.getLastD_cons]
          exact getLastD_mem_cons t b
        exact hp _ hmem
  have h := run_inv bs (stepWeb initState (.start 1 "session")) [] rfl rfl
    (validSeq_nil_cons bs hv) hp hn
  rw [show finalsOf (bs.getLastD []) =
      ((bs.getLastD []).takeWhile (fun r => r.isFinal)).map (fun r => r.transcript) from by
    unfold finalsOf
    rw [filter_final_eq_takeWhile _ hlastP]]
  exact h

/-- C1 witness: a concrete valid session of two prefix-final batches;
the accumulation equals the join of the finals of the last batch. -/
theorem c1_witness :
    validSeq [[⟨"hello", true⟩], [⟨"hello", true⟩, ⟨"world", true⟩, ⟨"um", false⟩]] ∧
    (runSession [[⟨"hello", true⟩],
        [⟨"hello", true⟩, ⟨"world", true⟩, ⟨"um", false⟩]]).accumulatedFinal =
      joinSp (finalsOf (([[⟨"hello", true⟩],
        [⟨"hello", true⟩, ⟨"world", true⟩, ⟨"um", false⟩]] : List Batch).getLastD [])) :=
  ⟨by decide, c1_accumulator_correct _ (by decide) (by decide) (by decide)⟩

/-- C6 counterexample (native backend): in a run where no result is
ever flagged final — only partial results arrive — the claim requires
the published transcript to consist of the current transient interim
fragment alone, but the native handler appends every partial fragment
permanently, so the superseded never-final fragment remains in the
published text. -/
theorem c6_counterexample :
    (runNative [NativeEvent.start 1 "t1", NativeEvent.partialResults ["abc"],
      NativeEvent.partialResults ["def"]]).transcribedText = "abc def" ∧
    ("abc def" : String) ≠ "def" :=
  ⟨by decide, by decide⟩

/-- C6 (amended, web backend): after any onresult event the published
transcript is exactly the accumulated final text joined with the
current interim fragment once at the end, and the accumulated final
text extends the previous one only by the join of the transcripts of
results flagged final in the scanned region — text never flagged final
enters the display only as the trailing interim fragment. -/
theorem c6_web_interim (s : RCState) (batch : Batch) (latest : SpeechResult)
    (h : batch.getLast? = some latest) :
    (resultStep s batch).transcribedText =
      mkDisplay (resultStep s batch).accumulatedFinal
        (if latest.isFinal then "" else latest.transcript) ∧
    (resultStep s batch).accumulatedFinal =
      (if joinSp (((batch.drop s.lastFinalIndex).filter (fun r => r.isFinal)).map
            (fun r => r.transcript)) = ""
       then s.accumulatedFinal
       else joinStep s.accumulatedFinal
         (joinSp (((batch.drop s.lastFinalIndex).filter (fun r => r.isFinal)).map
           (fun r => r.transcript)))) := by
  refine ⟨resultStep_transcribedText s batch latest h, ?_⟩
  rw [resultStep_accumulatedFinal s batch latest h, consumeFrom_fst0]

/-- C6 witness: concrete onresult event with one final and one interim
result from the initial state. -/
theorem c6_witness :
    (resultStep initState [⟨"x", true⟩, ⟨"y", false⟩]).transcribedText =
      mkDisplay (resultStep initState [⟨"x", true⟩, ⟨"y", false⟩]).accumulatedFinal
        (if (⟨"y", false⟩ : SpeechResult).isFinal then ""
         else (⟨"y", false⟩ : SpeechResult).transcript) ∧
    (resultStep initState [⟨"x", true⟩, ⟨"y", false⟩]).accumulatedFinal =
      (if joinSp (((([⟨"x", true⟩, ⟨"y", false⟩] : Batch).drop
            initState.lastFinalIndex).filter (fun r => r.isFinal)).map
            (fun r => r.transcript)) = ""
       then initState.accumulatedFinal
       else joinStep initState.accumulatedFinal
         (joinSp (((([⟨"x", true⟩, ⟨"y", false⟩] : Batch).drop
            initState.lastFinalIndex).filter (fun r => r.isFinal)).map
           (fun r => r.transcript)))) :=
  c6_web_interim initState [⟨"x", true⟩, ⟨"y", false⟩] ⟨"y", false⟩ rfl

theorem nativeChunkStep_lastFinalIndex (s : RCState) (values : List String) :
    (nativeChunkStep s values).lastFinalIndex = s.lastFinalIndex := by
  unfold nativeChunkStep
  split
  · rfl
  · rfl

theorem nativeChunkStep_accumulatedFinal (s : RCState) (values : List String) :
    (nativeChunkStep s values).accumulatedFinal = s.accumulatedFinal := by
  unfold nativeChunkStep
  split
  · rfl
  · rfl

theorem stepNative_lastFinalIndex (s : RCState) (e : NativeEvent) :
    (stepNative s e).lastFinalIndex = s.lastFinalIndex := by
  cases e with
  | start newId ts => rfl
  | ended => rfl
  | error msg => rfl
  | partialResults values => exact nativeChunkStep_lastFinalIndex s values
  | results values => exact nativeChunkStep_lastFinalIndex s values

theorem foldl_stepNative_lastFinalIndex (evs : List NativeEvent) :
    ∀ s : RCState, (evs.foldl stepNative s).lastFinalIndex = s.lastFinalIndex := by
  induction evs with
  | nil => intro s; rfl
  | cons e t ih =>
      intro s
      rw [List.foldl_cons, ih, stepNative_lastFinalIndex]

/-- C7: every start event leaves the cursor at 0 and the accumulated
final text empty on both backends (on the native backend the handler
never touches the cursor, which is invariantly 0 from the initial
state), and no non-start event ever decreases the cursor or changes
the accumulated final text other than by appending. -/
theorem c7_session_reset :
    (∀ (s : RCState) (newId : Nat) (ts : String),
      (stepWeb s (.start newId ts)).lastFinalIndex = 0 ∧
      (stepWeb s (.start newId ts)).accumulatedFinal = "") ∧
    (∀ (evs : List NativeEvent) (newId : Nat) (ts : String),
      (stepNative (runNative evs) (.start newId ts)).lastFinalIndex = 0 ∧
      (stepNative (runNative evs) (.start newId ts)).accumulatedFinal = "") ∧
    (∀ (s : RCState) (e : WebEvent), isStartWeb e = false →
      s.lastFinalIndex ≤ (stepWeb s e).lastFinalIndex ∧
      ∃ t, (stepWeb s e).accumulatedFinal = s.accumulatedFinal ++ t) ∧
    (∀ (s : RCState) (e : NativeEvent), isStartNative e = false →
      s.lastFinalIndex ≤ (stepNative s e).lastFinalIndex ∧
      ∃ t, (stepNative s e).accumulatedFinal = s.accumulatedFinal ++ t) := by
  refine ⟨fun s newId ts => ⟨rfl, rfl⟩, fun evs newId ts => ⟨?_, rfl⟩, ?_, ?_⟩
  · show (runNative evs).lastFinalIndex = 0
    exact foldl_stepNative_lastFinalIndex evs initState
  · intro s e he
    cases e with
    | start newId ts => simp [isStartWeb] at he
    | ended => exact ⟨Nat.le_refl _, ⟨"", (str_append_empty _).symm⟩⟩
    | error msg => exact ⟨Nat.le_refl _, ⟨"", (str_append_empty _).symm⟩⟩
    | result batch =>
        constructor
        · show s.lastFinalIndex ≤ (resultStep s batch).lastFinalIndex
          cases hlast : batch.getLast? with
          | none =>
              have hs : resultStep s batch = s := by
                unfold resultStep
                rw [hlast]
              exact Nat.le_of_eq (by rw [hs])
          | some latest =>
              rw [resultStep_lastFinalIndex s batch latest hlast]
              exact consumeFrom_cursor_ge _ _ _ _ (Nat.le_refl _)
        · show ∃ t, (resultStep s batch).accumulatedFinal = s.accumulatedFinal ++ t
          cases hlast : batch.getLast? with
          | none =>
              refine ⟨"", ?_⟩
              have hs : resultStep s batch = s := by
                unfold resultStep
                rw [hlast]
              rw [hs, str_append_empty]
          | some latest =>
              rw [resultStep_accumulatedFinal s batch latest hlast]
              by_cases happ : (consumeFrom (batch.drop s.lastFinalIndex)
                  s.lastFinalIndex s.lastFinalIndex "").1 = ""
              · refine ⟨"", ?_⟩
                rw [if_pos happ, str_append_empty]
              · rw [if_neg happ]
                by_cases hsa : s.accumulatedFinal = ""
                · refine ⟨(consumeFrom (batch.drop s.lastFinalIndex)
                    s.lastFinalIndex s.lastFinalIndex "").1, ?_⟩
                  rw [hsa, joinStep_empty_left, str_empty_append]
                · refine ⟨" " ++ (consumeFrom (batch.drop s.lastFinalIndex)
                    s.lastFinalIndex s.lastFinalIndex "").1, ?_⟩
                  rw [joinStep_of_ne _ _ hsa, str_assoc]
  · intro s e he
    cases e with
    | start newId ts => simp [isStartNative] at he
    | ended => exact ⟨Nat.le_refl _, ⟨"", (str_append_empty _).symm⟩⟩
    | error msg => exact ⟨Nat.le_refl _, ⟨"", (str_append_empty _).symm⟩⟩
    | partialResults values =>
        refine ⟨?_, ⟨"", ?_⟩⟩
        · exact Nat.le_of_eq (nativeChunkStep_lastFinalIndex s values).symm
        · show (nativeChunkStep s values).accumulatedFinal = s.accumulatedFinal ++ ""
          rw [nativeChunkStep_accumulatedFinal, str_append_empty]
    | results values =>
        refine ⟨?_, ⟨"", ?_⟩⟩
        · exact Nat.le_of_eq (nativeChunkStep_lastFinalIndex s values).symm
        · show (nativeChunkStep s values).accumulatedFinal = s.accumulatedFinal ++ ""
          rw [nativeChunkStep_accumulatedFinal, str_append_empty]

/-- C7 witness: concrete start events on both backends and concrete
non-start events from the initial state. -/
theorem c7_witness :
    ((stepWeb initState (.start 7 "ts")).lastFinalIndex = 0 ∧
      (stepWeb initState (.start 7 "ts")).accumulatedFinal = "") ∧
    ((stepNative (runNative [NativeEvent.start 1 "a", NativeEvent.partialResults ["x"]])
        (.start 2 "b")).lastFinalIndex = 0 ∧
      (stepNative (runNative [NativeEvent.start 1 "a", NativeEvent.partialResults ["x"]])
        (.start 2 "b")).accumulatedFinal = "") ∧
    (initState.lastFinalIndex ≤ (stepWeb initState (.result [⟨"x", true⟩])).lastFinalIndex ∧
      ∃ t, (stepWeb initState (.result [⟨"x", true⟩])).accumulatedFinal =
        initState.accumulatedFinal ++ t) ∧
    (initState.lastFinalIndex ≤
        (stepNative initState (.partialResults ["x"])).lastFinalIndex ∧
      ∃ t, (stepNative initState (.partialResults ["x"])).accumulatedFinal =
        initState.accumulatedFinal ++ t) :=
  ⟨c7_session_reset.1 initState 7 "ts",
   c7_session_reset.2.1 [NativeEvent.start 1 "a", NativeEvent.partialResults ["x"]] 2 "b",
   c7_session_reset.2.2.1 initState (.result [⟨"x", true⟩]) rfl,
   c7_session_reset.2.2.2 initState (.partialResults ["x"]) rfl⟩

/-- C8: an error event on either backend only sets the user-facing
error message; the accumulated final text, the cursor, the current
session id, the history, the published transcript and the recording
flag are unchanged. -/
theorem c8_error_frame (s : RCState) (msg : String) :
    ((stepWeb s (.error msg)).accumulatedFinal = s.accumulatedFinal ∧
      (stepWeb s (.error msg)).lastFinalIndex = s.lastFinalIndex ∧
      (stepWeb s (.error msg)).currentSessionId = s.currentSessionId ∧
      (stepWeb s (.error msg)).recordingHistory = s.recordingHistory ∧
      (stepWeb s (.error msg)).transcribedText = s.transcribedText ∧
      (stepWeb s (.error msg)).isRecording = s.isRecording ∧
      (stepWeb s (.error msg)).errorMessage = "음성 인식 오류: " ++ msg) ∧
    ((stepNative s (.error msg)).accumulatedFinal = s.accumulatedFinal ∧
      (stepNative s (.error msg)).lastFinalIndex = s.lastFinalIndex ∧
      (stepNative s (.error msg)).currentSessionId = s.currentSessionId ∧
      (stepNative s (.error msg)).recordingHistory = s.recordingHistory ∧
      (stepNative s (.error msg)).transcribedText = s.transcribedText ∧
      (stepNative s (.error msg)).isRecording = s.isRecording ∧
      (stepNative s (.error msg)).errorMessage = "음성 인식 오류: " ++ msg) :=
  ⟨⟨rfl, rfl, rfl, rfl, rfl, rfl, rfl⟩, ⟨rfl, rfl, rfl, rfl, rfl, rfl, rfl⟩⟩

/-! Lemmas about the fallback sweep of the proxy. -/

theorem tryModels_first_ok (call : String → Except String String) (t : String) :
    ∀ (pre : List String) (m : String) (post : List String) (last : Option String),
      (∀ m2 ∈ pre, ∃ e, call m2 = Except.error e) → call m = Except.ok t →
      tryModels call (pre ++ m :: post) last = (ApiResponse.ok t, pre ++ [m]) := by
  intro pre
  induction pre with
  | nil =>
      intro m post last _ hok
      show tryModels call (m :: post) last = _
      simp [tryModels, hok]
  | cons p ptail ih =>
      intro m post last hfail hok
      obtain ⟨e, he⟩ := hfail p (List.mem_cons_self p ptail)
      show tryModels call (p :: (ptail ++ m :: post)) last = _
      simp only [tryModels, he]
      rw [ih m post (some e) (fun m2 hm2 => hfail m2 (List.mem_cons_of_mem p hm2)) hok]
      rfl

theorem tryModels_ne_badRequest (call : String → Except String String) :
    ∀ (l : List String) (last : Option String) (e : String),
      (tryModels call l last).1 ≠ ApiResponse.badRequest e := by
  intro l
  induction l with
  | nil =>
      intro last e h
      exact ApiResponse.noConfusion h
  | cons m rest ih =>
      intro last e
      cases hc : call m with
      | ok t => simp [tryModels, hc]
      | error er =>
          simp only [tryModels, hc]
          exact ih (some er) e

/-- C2: with valid text the handler performs the fallback sweep over
the candidate list (the configured model or the built-in default
first, then the hardcoded secondary): one generation call per
candidate in order, and the first success returns immediately with
HTTP 200 and the generated content as the body, leaving later
candidates unattempted. -/
theorem c2_fallback_first_success (env : Option String)
    (call : String → String → Except String String) (b : ReqBody)
    (hval : textInvalid b.text = false)
    (pre post : List String) (m t : String)
    (hsplit : candidateList env = pre ++ m :: post)
    (hfail : ∀ m2 ∈ pre, ∃ e, call m2 (promptOf b) = Except.error e)
    (hok : call m (promptOf b) = Except.ok t) :
    handleGenerate env call (some b) = (ApiResponse.ok t, pre ++ [m]) ∧
    (ApiResponse.ok t).status = 200 := by
  refine ⟨?_, rfl⟩
  have h1 : handleGenerate env call (some b) =
      tryModels (fun m2 => call m2 (promptOf b)) (candidateList env) none := by
    simp [handleGenerate, hval]
  rw [h1, hsplit]
  exact tryModels_first_ok (fun m2 => call m2 (promptOf b)) t pre m post none hfail hok

/-- C2 witness: the specification test — the first candidate fails,
the second succeeds with the generated document; both candidates are
attempted in declared order and HTTP 200 carries the content. -/
theorem c2_witness :
    handleGenerate none
      (fun m _ => if m = "gemini-2.5-flash" then Except.error "quota" else Except.ok "결과문서")
      (some ⟨some (JsVal.str "안녕하세요 테스트"), none⟩) =
      (ApiResponse.ok "결과문서", ["gemini-2.5-flash", "gemini-1.5-flash"]) ∧
    (ApiResponse.ok "결과문서").status = 200 :=
  c2_fallback_first_success none _ ⟨some (JsVal.str "안녕하세요 테스트"), none⟩ (by decide)
    ["gemini-2.5-flash"] [] "gemini-1.5-flash" "결과문서" (by decide)
    (fun m2 hm2 => ⟨"quota", by rw [List.mem_singleton.mp hm2]; simp⟩) (by simp)

/-- C3 counterexample: when every candidate fails and the last failure
message is the empty string, the handler responds 500 with the default
unknown-error message rather than the last failure message, because
the catch block reports error message or-else the default. -/
theorem c3_counterexample :
    handleGenerate none (fun _ _ => Except.error "")
        (some ⟨some (JsVal.str "회의 내용 정리"), none⟩) =
      (ApiResponse.serverError "알 수 없는 오류", [defaultModel, secondModel]) ∧
    ("알 수 없는 오류" : String) ≠ "" :=
  ⟨by decide, by decide⟩

/-- C3 (amended): if every candidate fails and the last failure
message is non-empty, the handler responds HTTP 500 with exactly that
message, having attempted every candidate in order; an empty last
message is replaced by the default unknown-error message. -/
theorem c3_all_fail_last_error (env : Option String)
    (call : String → String → Except String String) (b : ReqBody) (f : String → String)
    (hval : textInvalid b.text = false)
    (hfail : ∀ m ∈ candidateList env, call m (promptOf b) = Except.error (f m))
    (hne : f secondModel ≠ "") :
    handleGenerate env call (some b) =
      (ApiResponse.serverError (f secondModel), candidateList env) ∧
    (ApiResponse.serverError (f secondModel)).status = 500 := by
  refine ⟨?_, rfl⟩
  have h1 : firstModel env ∈ candidateList env := List.mem_cons_self _ _
  have h2 : secondModel ∈ candidateList env :=
    List.mem_cons_of_mem _ (List.mem_cons_self _ _)
  have hc1 := hfail _ h1
  have hc2 := hfail _ h2
  have h0 : handleGenerate env call (some b) =
      tryModels (fun m2 => call m2 (promptOf b)) (candidateList env) none := by
    simp [handleGenerate, hval]
  rw [h0]
  show tryModels _ [firstModel env, secondModel] none = _
  simp only [tryModels, hc1, hc2]
  simp [exhaustMsg, hne]
  rfl

/-- C3 witness: both candidates fail with distinct non-empty messages;
the reported error is the failure message of the last candidate. -/
theorem c3_witness :
    handleGenerate none (fun m _ => Except.error ("fail " ++ m))
        (some ⟨some (JsVal.str "테스트 텍스트"), none⟩) =
      (ApiResponse.serverError ("fail " ++ secondModel), candidateList none) ∧
    (ApiResponse.serverError ("fail " ++ secondModel)).status = 500 :=
  c3_all_fail_last_error none _ ⟨some (JsVal.str "테스트 텍스트"), none⟩
    (fun m => "fail " ++ m) (by decide) (fun m _ => rfl) (by decide)

/-- C4: a missing body, a missing text field, a non-string text field,
and a string text of trimmed length under 3 each yield HTTP 400 with
the validation message and an empty list of attempted models (no model
call); a string text of trimmed length at least 3 never takes the
validation branch. -/
theorem c4_validation :
    (∀ (env : Option String) (call : String → String → Except String String),
      handleGenerate env call none = (ApiResponse.badRequest validationMsg, [])) ∧
    (∀ (env : Option String) (call : String → String → Except String String)
      (dt : Option String),
      handleGenerate env call (some ⟨none, dt⟩) = (ApiResponse.badRequest validationMsg, [])) ∧
    (∀ (env : Option String) (call : String → String → Except String String)
      (dt : Option String),
      handleGenerate env call (some ⟨some JsVal.nonString, dt⟩) =
        (ApiResponse.badRequest validationMsg, [])) ∧
    (∀ (env : Option String) (call : String → String → Except String String)
      (dt : Option String) (s : String), (trimChars s).length < 3 →
      handleGenerate env call (some ⟨some (JsVal.str s), dt⟩) =
        (ApiResponse.badRequest validationMsg, [])) ∧
    (∀ (env : Option String) (call : String → String → Except String String)
      (dt : Option String) (s : String), 3 ≤ (trimChars s).length → ∀ e,
      (handleGenerate env call (some ⟨some (JsVal.str s), dt⟩)).1 ≠
        ApiResponse.badRequest e) ∧
    (ApiResponse.badRequest validationMsg).status = 400 := by
  refine ⟨fun env call => rfl, fun env call dt => rfl, fun env call dt => rfl, ?_, ?_, rfl⟩
  · intro env call dt s h
    have hti : textInvalid (some (JsVal.str s)) = true := by
      simp only [textInvalid, Bool.or_eq_true, beq_iff_eq, decide_eq_true_eq]
      exact Or.inr h
    simp [handleGenerate, hti]
  · intro env call dt s h e
    have hti : textInvalid (some (JsVal.str s)) = false := by
      simp only [textInvalid, Bool.or_eq_false_iff, beq_eq_false_iff_ne, ne_eq,
        decide_eq_false_iff_not, not_lt]
      constructor
      · intro hs
        rw [hs] at h
        simp [trimChars] at h
      · exact h
    have hh : handleGenerate env call (some ⟨some (JsVal.str s), dt⟩) =
        tryModels (fun m2 => call m2 (promptOf ⟨some (JsVal.str s), dt⟩))
          (candidateList env) none := by
      simp [handleGenerate, hti]
    rw [hh]
    exact tryModels_ne_badRequest _ _ _ _

/-- C4 witness: the one-character text of the specification test is
rejected with HTTP 400 and no model call; a valid text does not take
the validation branch. -/
theorem c4_witness :
    handleGenerate none (fun _ _ => Except.ok "문서") (some ⟨some (JsVal.str "a"), none⟩) =
      (ApiResponse.badRequest validationMsg, []) ∧
    (handleGenerate none (fun _ _ => Except.ok "문서")
        (some ⟨some (JsVal.str "안녕하세요 테스트"), none⟩)).1 ≠
      ApiResponse.badRequest validationMsg :=
  ⟨c4_validation.2.2.2.1 none _ none "a" (by decide),
   c4_validation.2.2.2.2.1 none _ none "안녕하세요 테스트" (by decide) validationMsg⟩

/-- C5 counterexample: an empty-string documentType is not replaced by
the report default — the destructuring default fires only when the
field is absent — so the constructed prompt differs from the prompt
built with the report label, while the text itself is valid. -/
theorem c5_counterexample :
    effDocType ⟨some (JsVal.str "테스트 원문"), some ""⟩ = "" ∧
    promptOf ⟨some (JsVal.str "테스트 원문"), some ""⟩ = mkPrompt "" "테스트 원문" ∧
    mkPrompt "" "테스트 원문" ≠ mkPrompt "보고서" "테스트 원문" ∧
    textInvalid (some (JsVal.str "테스트 원문")) = false :=
  ⟨rfl, rfl, by decide, by decide⟩

/-- C5 (amended): when documentType is absent the prompt is built with
the report label as the effective type, sitting in the type slot of
the template, and the handler sweeps the candidates with exactly that
prompt; a present empty string is used as is. -/
theorem c5_default_doc_type (env : Option String)
    (call : String → String → Except String String) (b : ReqBody)
    (hdt : b.documentType = none) (hval : textInvalid b.text = false) :
    promptOf b = promptHead ++ "보고서" ++ promptMid ++ textOf b ++ promptTail ∧
    handleGenerate env call (some b) =
      tryModels
        (fun m => call m (promptHead ++ "보고서" ++ promptMid ++ textOf b ++ promptTail))
        (candidateList env) none := by
  have h1 : promptOf b = promptHead ++ "보고서" ++ promptMid ++ textOf b ++ promptTail := by
    unfold promptOf effDocType mkPrompt
    rw [hdt]
    rfl
  refine ⟨h1, ?_⟩
  have h0 : handleGenerate env call (some b) =
      tryModels (fun m => call m (promptOf b)) (candidateList env) none := by
    simp [handleGenerate, hval]
  rw [h0]
  simp only [h1]

/-- C5 witness: concrete request without documentType. -/
theorem c5_witness :
    promptOf ⟨some (JsVal.str "오늘 회의 요약"), none⟩ =
      promptHead ++ "보고서" ++ promptMid ++
        textOf ⟨some (JsVal.str "오늘 회의 요약"), none⟩ ++ promptTail ∧
    handleGenerate none (fun _ _ => Except.ok "문서입니다")
        (some ⟨some (JsVal.str "오늘 회의 요약"), none⟩) =
      tryModels
        (fun m => (fun _ _ => Except.ok "문서입니다") m
          (promptHead ++ "보고서" ++ promptMid ++
            textOf ⟨some (JsVal.str "오늘 회의 요약"), none⟩ ++ promptTail))
        (candidateList none) none :=
  c5_default_doc_type none _ ⟨some (JsVal.str "오늘 회의 요약"), none⟩ rfl (by decide)

/-- C9: the prompt template is a pure deterministic function of text
and document type — identical inputs give byte-identical prompts. -/
theorem c9_prompt_deterministic (t1 d1 t2 d2 : String) (ht : t1 = t2) (hd : d1 = d2) :
    mkPrompt d1 t1 = mkPrompt d2 t2 := by
  rw [ht, hd]

/-- C9 witness: two calls with identical concrete inputs. -/
theorem c9_witness :
    mkPrompt "보고서" "안녕하세요 회의 내용" = mkPrompt "보고서" "안녕하세요 회의 내용" :=
  c9_prompt_deterministic "안녕하세요 회의 내용" "보고서" "안녕하세요 회의 내용" "보고서" rfl rfl

/-- C10: a failed generation request — rejected fetch or a non-ok
response — clears both the generated and the edited document state,
and an empty input text sets the no-text error message and issues no
HTTP request, leaving the document states unchanged. -/
theorem c10_client_failure_reset :
    (∀ (s : DocGenState) (text msg : String), text ≠ "" →
      (generateDocument s text (.throws msg)).1.generatedDocument = "" ∧
      (generateDocument s text (.throws msg)).1.editedDocument = "") ∧
    (∀ (s : DocGenState) (text : String) (content errField : Option String), text ≠ "" →
      (generateDocument s text (.resp false content errField)).1.generatedDocument = "" ∧
      (generateDocument s text (.resp false content errField)).1.editedDocument = "") ∧
    (∀ (s : DocGenState) (outcome : FetchOutcome),
      (generateDocument s "" outcome).2 = false ∧
      (generateDocument s "" outcome).1.error = noTextMsg ∧
      (generateDocument s "" outcome).1.generatedDocument = s.generatedDocument ∧
      (generateDocument s "" outcome).1.editedDocument = s.editedDocument) := by
  refine ⟨?_, ?_, ?_⟩
  · intro s text msg h
    constructor <;> simp [generateDocument, h]
  · intro s text content errField h
    constructor <;> simp [generateDocument, h]
  · intro s outcome
    refine ⟨?_, ?_, ?_, ?_⟩ <;> simp [generateDocument]

/-- C10 witness: a previously generated document is discarded by a
rejected fetch and by a non-ok response, and an empty text
short-circuits without a request. -/
theorem c10_witness :
    ((generateDocument ⟨"이전 문서", "이전 문서", "", false⟩ "텍스트"
        (.throws "network failure")).1.generatedDocument = "" ∧
      (generateDocument ⟨"이전 문서", "이전 문서", "", false⟩ "텍스트"
        (.throws "network failure")).1.editedDocument = "") ∧
    ((generateDocument ⟨"이전 문서", "이전 문서", "", false⟩ "텍스트"
        (.resp false none (some "오류"))).1.generatedDocument = "" ∧
      (generateDocument ⟨"이전 문서", "이전 문서", "", false⟩ "텍스트"
        (.resp false none (some "오류"))).1.editedDocument = "") ∧
    ((generateDocument ⟨"이전 문서", "이전 문서", "", false⟩ ""
        (.resp true (some "새 문서") none)).2 = false ∧
      (generateDocument ⟨"이전 문서", "이전 문서", "", false⟩ ""
        (.resp true (some "새 문서") none)).1.error = noTextMsg ∧
      (generateDocument ⟨"이전 문서", "이전 문서", "", false⟩ ""
        (.resp true (some "새 문서") none)).1.generatedDocument =
        (⟨"이전 문서", "이전 문서", "", false⟩ : DocGenState).generatedDocument ∧
      (generateDocument ⟨"이전 문서", "이전 문서", "", false⟩ ""
        (.resp true (some "새 문서") none)).1.editedDocument =
        (⟨"이전 문서", "이전 문서", "", false⟩ : DocGenState).editedDocument) :=
  ⟨c10_client_failure_reset.1 _ "텍스트" "network failure" (by decide),
   c10_client_failure_reset.2.1 _ "텍스트" none (some "오류") (by decide),
   c10_client_failure_reset.2.2 _ (.resp true (some "새 문서") none)⟩
